import Mathlib

/-!
Verification of the producer/consumer kernel module (src/producer_consumer.c)
against its natural-language specification.

Shallow embedding notes:
  * A work item is a `task_struct` as used by the module: pid, uid
    (`task->cred->uid.val`) and start time (`task->start_time`, nanoseconds).
  * The shared state (circular buffer, head/tail, the `empty` and `full`
    counting semaphores, the statistics counters) is a record `SysState`.
  * The `mutex` binary semaphore makes each critical section atomic; we model
    it by making every lock-protected critical section a single atomic step of
    a small-step interleaving semantics (`step`/`run`).  The semaphore counts
    of `empty` and `full` are carried explicitly because the code manipulates
    them outside the critical sections.
  * `down_interruptible` can fail with -EINTR, upon which the thread executes
    `break`.  Each such early exit is an explicit operation of the semantics:
    `putIntrEmpty` / `takeIntrFull` model interruption of the first wait
    (possible exactly when the semaphore count is 0, since `down_interruptible`
    takes the uncontended fast path otherwise), and `putIntrMutex` /
    `takeIntrMutex` model interruption of the lock wait after the first
    semaphore was already decremented (possible when another thread holds the
    lock; the interleaving allows it whenever the first wait has succeeded).
  * `int` / `long` counters of the C code are embedded as `Int` with explicit
    wrap-around at 32 / 64 bits (`wrap32` / `wrap64`).
-/

namespace ProducerConsumer

/-- A work item: the fields of `struct task_struct` that the module reads
(`task->pid`, `task->cred->uid.val`, `task->start_time`). -/
structure Task where
  pid : Nat
  uid : Nat
  start_time : Nat
deriving Repr, DecidableEq

/-- The shared statistics counters `totalConsumed` (C `int`) and
`totalProcessNanoseconds` (C `long`). -/
structure Stats where
  totalConsumed : Int
  totalProcessNanoseconds : Int
deriving Repr, DecidableEq

/-- Wrap-around of a C 32-bit signed integer. -/
def wrap32 (x : Int) : Int := (x + 2 ^ 31) % 2 ^ 32 - 2 ^ 31

/-- Wrap-around of a C 64-bit signed integer. -/
def wrap64 (x : Int) : Int := (x + 2 ^ 63) % 2 ^ 64 - 2 ^ 63

/-- The statistics update of the consumer's critical section
(lines `totalConsumed++; taskTime = ktime_get_ns() - task->start_time;
totalProcessNanoseconds += taskTime;`), performed under the same `mutex`
that protects the buffer mutation. -/
def consumeStats (st : Stats) (now : Int) (start_time : Int) : Stats :=
  { totalConsumed := wrap32 (st.totalConsumed + 1)
    totalProcessNanoseconds :=
      wrap64 (st.totalProcessNanoseconds + wrap64 (now - start_time)) }

/-- The shared mutable state of the module: the circular buffer of
`task_struct` pointers (a slot is `none` while still uninitialized memory
from `kmalloc`), the `head` and `tail` indices, the counts of the `empty`
and `full` counting semaphores, and the statistics counters. -/
structure SysState where
  buffSize : Nat
  buffer : List (Option Task)
  head : Nat
  tail : Nat
  empty : Nat
  full : Nat
  stats : Stats
deriving Repr, DecidableEq

/-- State after `producer_consumer_init` has set up the module:
`sema_init(&empty, buffSize); sema_init(&full, 0); sema_init(&mutex, 1);`
plus the freshly allocated (uninitialized) buffer and `head = tail = 0`,
`totalConsumed = 0`, `totalProcessNanoseconds = 0`. -/
def initState (buffSize : Nat) : SysState :=
  { buffSize := buffSize
    buffer := List.replicate buffSize none
    head := 0
    tail := 0
    empty := buffSize
    full := 0
    stats := { totalConsumed := 0, totalProcessNanoseconds := 0 } }

/-- One observable operation of the running system.  `put t` / `take now`
are complete passes through the body of the producer / consumer loop
(both semaphore waits succeeded, critical section executed).  The four
`Intr` operations are the `break`-on-`-EINTR` early exits of
`down_interruptible`: interruption of the first (slot-count) wait, or
interruption of the `mutex` wait after the slot-count semaphore was
already decremented. -/
inductive Op where
  | put (t : Task)
  | putIntrEmpty
  | putIntrMutex
  | take (now : Nat)
  | takeIntrFull
  | takeIntrMutex
deriving Repr, DecidableEq

/-- Small-step semantics of the loop bodies of `kthread_producer` and
`kthread_consumer`.  `none` means the operation is not enabled in this
state (the thread would stay blocked, or — for a `take` finding an
uninitialized slot — the model refuses to read garbage; the invariant
proofs show the latter never happens in reachable states).  The second
component lists the items consumed by the step. -/
def step (s : SysState) : Op → Option (SysState × List Task)
  | .put t =>
    if s.empty = 0 then none
    else
      some ({ s with
        empty := s.empty - 1
        buffer := s.buffer.set s.tail (some t)
        tail := (s.tail + 1) % s.buffSize
        full := s.full + 1 }, [])
  | .putIntrEmpty => if s.empty = 0 then some (s, []) else none
  | .putIntrMutex =>
    if s.empty = 0 then none else some ({ s with empty := s.empty - 1 }, [])
  | .take now =>
    if s.full = 0 then none
    else
      match s.buffer.getD s.head none with
      | none => none
      | some t =>
        some ({ s with
          full := s.full - 1
          stats := consumeStats s.stats (now : Int) (t.start_time : Int)
          head := (s.head + 1) % s.buffSize
          empty := s.empty + 1 }, [t])
  | .takeIntrFull => if s.full = 0 then some (s, []) else none
  | .takeIntrMutex =>
    if s.full = 0 then none else some ({ s with full := s.full - 1 }, [])

/-- Execution of a schedule of operations, collecting the consumed items in
order.  `none` if some operation in the schedule is not enabled. -/
def run : SysState → List Op → Option (SysState × List Task)
  | s, [] => some (s, [])
  | s, op :: rest =>
    (step s op).bind fun pr =>
      (run pr.1 rest).bind fun pr2 => some (pr2.1, pr.2 ++ pr2.2)

/-- The sequence of items handed to `put` by a schedule, in order. -/
def putsOf : List Op → List Task
  | [] => []
  | .put t :: rest => t :: putsOf rest
  | _ :: rest => putsOf rest

/-- The scan loop of `kthread_producer`: `for_each_process(task)` with the
filter `if (task->cred->uid.val == uuid)`; for each accepted task the thread
puts it into the buffer, increments its local `count` and logs the new count.
The result is the list of `(count, task)` pairs of the accepted items, in
scan order; rejected items contribute nothing (no buffer write, no count
increment, no log line). -/
def kthread_producer_scan (uuid : Nat) (count : Nat) : List Task → List (Nat × Task)
  | [] => []
  | task :: rest =>
    if task.uid == uuid then (count + 1, task) :: kthread_producer_scan uuid (count + 1) rest
    else kthread_producer_scan uuid count rest

/-- The externally visible startup actions of `producer_consumer_init`, in
program order, after parameter validation has passed. -/
inductive InitAction where
  | semaInitEmpty (v : Int)
  | semaInitFull (v : Int)
  | semaInitMutex (v : Int)
  | allocBuffer (size : Int)
  | allocConsumerArray (n : Int)
  | createConsumer (i : Int)
  | createProducer
deriving Repr, DecidableEq

/-- The validation and startup sequence of `producer_consumer_init`:
the three parameter checks run first and return `-1` before any
`sema_init`, any `kmalloc` and any `kthread_run`; on valid parameters the
function performs the listed actions in order (allocation and thread
creation failures are external and not modelled). -/
def producer_consumer_init (buffSize prod cons : Int) : Except Int (List InitAction) :=
  if buffSize < 1 then .error (-1)
  else if prod < 0 ∨ prod > 1 then .error (-1)
  else if cons < 0 then .error (-1)
  else .ok (
    [.semaInitEmpty buffSize, .semaInitFull 0, .semaInitMutex 1, .allocBuffer buffSize] ++
    (if 0 < cons then
      .allocConsumerArray cons ::
        (List.range cons.toNat).map (fun i => .createConsumer (i : Int))
    else []) ++
    (if prod = 1 then [.createProducer] else []))

/-- The externally visible actions of `producer_consumer_exit`. -/
inductive ExitAction where
  | stopConsumer (i : Nat)
  | upMutex
  | upFull
  | freeBuffer
  | freeConsumerThreads
  | printSummary
deriving Repr, DecidableEq

/-- The shutdown sequence of `producer_consumer_exit`, in program order:
`kthread_stop(consumerThreads[i])` (a blocking join that also requests the
stop) for every `i < cons`, then a single `up(&mutex)` and a single
`up(&full)`, then the deallocations and the final summary line. -/
def producer_consumer_exit (cons : Nat) : List ExitAction :=
  ((List.range cons).map ExitAction.stopConsumer) ++
  ([ExitAction.upMutex, ExitAction.upFull, ExitAction.freeBuffer] ++
  ((if 0 < cons then [ExitAction.freeConsumerThreads] else []) ++
  [ExitAction.printSummary]))

/-- The conversion `%02ld` of `sprintf`: decimal rendering, zero-padded on
the left to a minimum width of two characters. -/
def pad2 (n : Int) : String :=
  if 0 ≤ n ∧ n < 10 then "0" ++ toString n else toString n

/-- The elapsed-time formatting of `kthread_consumer`:
`sprintf(timeFormat, "%02ld:%02ld:%02ld", taskTime / 3600000000000,
(taskTime / 60000000000) % 60, (taskTime / 1000000000) % 60)`.
C `/` and `%` on `long` truncate toward zero, i.e. `Int.tdiv` / `Int.tmod`. -/
def formatElapsed (taskTime : Int) : String :=
  pad2 (Int.tdiv taskTime 3600000000000) ++ ":" ++
  pad2 (Int.tmod (Int.tdiv taskTime 60000000000) 60) ++ ":" ++
  pad2 (Int.tmod (Int.tdiv taskTime 1000000000) 60)

/-- The elapsed-time formatting of the final summary line in
`producer_consumer_exit`, applied to `totalProcessNanoseconds`; the
`sprintf` format string is character-for-character the one used in
`kthread_consumer`. -/
def exit_formatElapsed (totalProcessNanoseconds : Int) : String :=
  pad2 (Int.tdiv totalProcessNanoseconds 3600000000000) ++ ":" ++
  pad2 (Int.tmod (Int.tdiv totalProcessNanoseconds 60000000000) 60) ++ ":" ++
  pad2 (Int.tmod (Int.tdiv totalProcessNanoseconds 1000000000) 60)

/-- Byte size of the destination `char timeFormat[9]` that both `sprintf`
call sites write the formatted elapsed time into (8 characters plus the
terminating NUL). -/
def timeFormatSize : Nat := 9

/-! ### Invariant of the circular buffer

`BufInv C s pending` relates a state to the list `pending` of items that
have been stored by `put` and not yet removed by `take` (oldest first).
All facts proved about reachable states go through this invariant. -/

/-- Buffer invariant.  `pending` is the queue of unconsumed items; the
slots `head, head+1, …` modulo `C` hold exactly these items, `tail` is
`head + pending.length` modulo `C`, the `empty` count never exceeds the
free space, and the `full` count never exceeds the number of unconsumed
items (interrupted lock waits can make both counts strictly smaller). -/
structure BufInv (C : Nat) (s : SysState) (pending : List Task) : Prop where
  hsize : s.buffSize = C
  hlen : s.buffer.length = C
  hC : 1 ≤ C
  hhead : s.head < C
  htail : s.tail < C
  htailEq : s.tail = (s.head + pending.length) % C
  hcap : pending.length + s.empty ≤ C
  hfull : s.full ≤ pending.length
  hslots : ∀ i, i < pending.length →
    s.buffer.getD ((s.head + i) % C) none = pending[i]?

/-- Cancellation of a common summand under `% C` when both remainders are
already reduced. -/
theorem mod_add_cancel {C h a b : Nat} (ha : a < C) (hb : b < C)
    (heq : (h + a) % C = (h + b) % C) : a = b := by
  have heq' : h + a ≡ h + b [MOD C] := heq
  have h2 : a ≡ b [MOD C] := Nat.ModEq.add_left_cancel' h heq'
  have h3 : a % C = b % C := h2
  rwa [Nat.mod_eq_of_lt ha, Nat.mod_eq_of_lt hb] at h3

/-- The initial state satisfies the invariant with an empty queue. -/
theorem initInv (C : Nat) (hC : 1 ≤ C) : BufInv C (initState C) [] := by
  refine ⟨rfl, by simp [initState], hC, hC, hC, by simp [initState], ?_, ?_, ?_⟩
  · simp [initState]
  · simp [initState]
  · intro i hi
    simp at hi

/-- `putsOf` distributes over `cons`. -/
theorem putsOf_cons (op : Op) (rest : List Op) :
    putsOf (op :: rest) = putsOf [op] ++ putsOf rest := by
  cases op <;> simp [putsOf]

/-- Every enabled step preserves the invariant; the queue evolves by
appending the stored item (for `put`), removing the front item (for
`take`, which is also the step's output), or staying unchanged (for the
interrupted waits). -/
theorem step_inv {C : Nat} {s : SysState} {pending : List Task} {op : Op}
    {s' : SysState} {out : List Task}
    (hinv : BufInv C s pending) (h : step s op = some (s', out)) :
    ∃ pending', BufInv C s' pending' ∧ pending ++ putsOf [op] = out ++ pending' := by
  cases op with
  | put t =>
    simp only [step] at h
    split at h
    · simp at h
    next hempty =>
      simp only [Option.some.injEq, Prod.mk.injEq] at h
      obtain ⟨hs, hout⟩ := h
      subst hs; subst hout
      have hLC : pending.length < C := by
        have := hinv.hcap; omega
      have hiC : ∀ i, i < pending.length → i < C := by
        intro i hi; omega
      refine ⟨pending ++ [t], ⟨hinv.hsize, ?_, hinv.hC, hinv.hhead, ?_, ?_, ?_, ?_, ?_⟩,
        by simp [putsOf]⟩
      · simpa using hinv.hlen
      · show (s.tail + 1) % s.buffSize < C
        rw [hinv.hsize]
        exact Nat.mod_lt _ (by omega)
      · show (s.tail + 1) % s.buffSize = (s.head + (pending ++ [t]).length) % C
        rw [hinv.hsize, hinv.htailEq, Nat.mod_add_mod]
        simp only [List.length_append, List.length_cons, List.length_nil]
        congr 1
      · have := hinv.hcap
        simp only [List.length_append, List.length_cons, List.length_nil]
        omega
      · have := hinv.hfull
        simp only [List.length_append, List.length_cons, List.length_nil]
        omega
      · intro i hi
        simp only [List.length_append, List.length_cons, List.length_nil] at hi
        rcases Nat.lt_or_ge i pending.length with hiL | hiL
        · have hne : s.tail ≠ (s.head + i) % C := by
            intro hcon
            rw [hinv.htailEq] at hcon
            exact absurd (mod_add_cancel (hiC i hiL) hLC hcon.symm) (by omega)
          calc (s.buffer.set s.tail (some t)).getD ((s.head + i) % C) none
              = ((s.buffer.set s.tail (some t))[(s.head + i) % C]?).getD none :=
                List.getD_eq_getElem?_getD _ _ _
            _ = (s.buffer[(s.head + i) % C]?).getD none := by
                rw [List.getElem?_set_ne hne]
            _ = s.buffer.getD ((s.head + i) % C) none :=
                (List.getD_eq_getElem?_getD _ _ _).symm
            _ = pending[i]? := hinv.hslots i hiL
            _ = (pending ++ [t])[i]? := (List.getElem?_append_left hiL).symm
        · have hiEq : i = pending.length := by omega
          subst hiEq
          rw [← hinv.htailEq]
          have htl : s.tail < s.buffer.length := by rw [hinv.hlen]; exact hinv.htail
          calc (s.buffer.set s.tail (some t)).getD s.tail none
              = ((s.buffer.set s.tail (some t))[s.tail]?).getD none :=
                List.getD_eq_getElem?_getD _ _ _
            _ = (some (some t)).getD none := by rw [List.getElem?_set_self htl]
            _ = some t := rfl
            _ = (pending ++ [t])[pending.length]? := by simp
  | putIntrEmpty =>
    simp only [step] at h
    split at h
    · simp only [Option.some.injEq, Prod.mk.injEq] at h
      obtain ⟨hs, hout⟩ := h
      subst hs; subst hout
      exact ⟨pending, hinv, by simp [putsOf]⟩
    · simp at h
  | putIntrMutex =>
    simp only [step] at h
    split at h
    · simp at h
    next hempty =>
      simp only [Option.some.injEq, Prod.mk.injEq] at h
      obtain ⟨hs, hout⟩ := h
      subst hs; subst hout
      refine ⟨pending, ⟨hinv.hsize, hinv.hlen, hinv.hC, hinv.hhead, hinv.htail,
        hinv.htailEq, ?_, hinv.hfull, hinv.hslots⟩, by simp [putsOf]⟩
      show pending.length + (s.empty - 1) ≤ C
      have := hinv.hcap
      omega
  | take now =>
    simp only [step] at h
    split at h
    · simp at h
    next hfull0 =>
      cases hslot : s.buffer.getD s.head none with
      | none => rw [hslot] at h; simp at h
      | some t0 =>
        rw [hslot] at h
        simp only [Option.some.injEq, Prod.mk.injEq] at h
        obtain ⟨hs, hout⟩ := h
        subst hs; subst hout
        cases pending with
        | nil =>
          have := hinv.hfull
          simp at this
          omega
        | cons p0 rest =>
          have h0 := hinv.hslots 0 (by simp)
          rw [Nat.add_zero, Nat.mod_eq_of_lt hinv.hhead, hslot] at h0
          simp only [List.getElem?_cons_zero, Option.some.injEq] at h0
          subst h0
          have hLC : rest.length + 1 ≤ C := by
            have := hinv.hcap; simp only [List.length_cons] at this; omega
          refine ⟨rest, ⟨hinv.hsize, hinv.hlen, hinv.hC, ?_, hinv.htail, ?_, ?_, ?_, ?_⟩,
            by simp [putsOf]⟩
          · show (s.head + 1) % s.buffSize < C
            rw [hinv.hsize]
            exact Nat.mod_lt _ (by omega)
          · show s.tail = ((s.head + 1) % s.buffSize + rest.length) % C
            rw [hinv.hsize, Nat.mod_add_mod, hinv.htailEq]
            simp only [List.length_cons]
            congr 1
            omega
          · show rest.length + (s.empty + 1) ≤ C
            have := hinv.hcap
            simp only [List.length_cons] at this
            omega
          · show s.full - 1 ≤ rest.length
            have := hinv.hfull
            simp only [List.length_cons] at this
            omega
          · intro i hi
            show s.buffer.getD (((s.head + 1) % s.buffSize + i) % C) none = rest[i]?
            rw [hinv.hsize, Nat.mod_add_mod]
            have := hinv.hslots (i + 1) (by simp; omega)
            rw [show s.head + 1 + i = s.head + (i + 1) by omega]
            rw [this]
            simp
  | takeIntrFull =>
    simp only [step] at h
    split at h
    · simp only [Option.some.injEq, Prod.mk.injEq] at h
      obtain ⟨hs, hout⟩ := h
      subst hs; subst hout
      exact ⟨pending, hinv, by simp [putsOf]⟩
    · simp at h
  | takeIntrMutex =>
    simp only [step] at h
    split at h
    · simp at h
    next hfull0 =>
      simp only [Option.some.injEq, Prod.mk.injEq] at h
      obtain ⟨hs, hout⟩ := h
      subst hs; subst hout
      refine ⟨pending, ⟨hinv.hsize, hinv.hlen, hinv.hC, hinv.hhead, hinv.htail,
        hinv.htailEq, hinv.hcap, ?_, hinv.hslots⟩, by simp [putsOf]⟩
      show s.full - 1 ≤ pending.length
      have := hinv.hfull
      omega

/-- Every state reached by a valid schedule satisfies the invariant, and
the items put so far are exactly the items taken so far followed by the
still-pending queue. -/
theorem run_inv {C : Nat} : ∀ (ops : List Op) (s : SysState) (pending : List Task)
    (s' : SysState) (outs : List Task),
    BufInv C s pending → run s ops = some (s', outs) →
    ∃ pending', BufInv C s' pending' ∧ pending ++ putsOf ops = outs ++ pending'
  | [], s, pending, s', outs, hinv, h => by
    simp only [run, Option.some.injEq, Prod.mk.injEq] at h
    obtain ⟨h1, h2⟩ := h
    subst h1; subst h2
    exact ⟨pending, hinv, by simp [putsOf]⟩
  | op :: rest, s, pending, s', outs, hinv, h => by
    simp only [run, Option.bind_eq_some] at h
    obtain ⟨⟨s1, out⟩, h1, ⟨s2, outs1⟩, h2, h3⟩ := h
    simp only [Option.some.injEq, Prod.mk.injEq] at h3
    obtain ⟨hA, hB⟩ := h3
    subst hA; subst hB
    obtain ⟨p1, hinv1, hrel1⟩ := step_inv hinv h1
    obtain ⟨p2, hinv2, hrel2⟩ := run_inv rest s1 p1 s2 outs1 hinv1 h2
    refine ⟨p2, hinv2, ?_⟩
    calc pending ++ putsOf (op :: rest)
        = (pending ++ putsOf [op]) ++ putsOf rest := by
          rw [putsOf_cons, List.append_assoc]
      _ = (out ++ p1) ++ putsOf rest := by rw [hrel1]
      _ = out ++ (p1 ++ putsOf rest) := by rw [List.append_assoc]
      _ = out ++ (outs1 ++ p2) := by rw [hrel2]
      _ = (out ++ outs1) ++ p2 := by rw [List.append_assoc]

/-! ### Claim theorems -/

/-- Claim C2: for every schedule of accepted puts and takes executed from
the initial state (single producer, takes drained in one consumer order),
the sequence of items returned by `take` equals the sequence of items
passed to `put`, in the same order (FIFO): the consumed sequence is the
length-`outs.length` front of the produced sequence, and when everything
produced has been consumed the two sequences are equal. -/
theorem fifo_order (C : Nat) (ops : List Op) (s' : SysState) (outs : List Task)
    (hC : 1 ≤ C) (h : run (initState C) ops = some (s', outs)) :
    outs = (putsOf ops).take outs.length ∧
    (outs.length = (putsOf ops).length → outs = putsOf ops) := by
  obtain ⟨pending, _, hrel⟩ := run_inv ops (initState C) [] s' outs (initInv C hC) h
  simp only [List.nil_append] at hrel
  constructor
  · rw [hrel, List.take_left]
  · intro hlen
    rw [hrel] at hlen
    rw [List.length_append] at hlen
    have hp : pending = [] := List.length_eq_zero.mp (by omega)
    rw [hrel, hp, List.append_nil]

def fifoTaskA : Task := { pid := 1, uid := 1, start_time := 5 }

def fifoTaskB : Task := { pid := 2, uid := 1, start_time := 6 }

def fifoOpsW : List Op :=
  [Op.put fifoTaskA, Op.put fifoTaskB, Op.take 10, Op.take 12]

def fifoStateW : SysState :=
  { buffSize := 2, buffer := [some fifoTaskA, some fifoTaskB], head := 0, tail := 0,
    empty := 2, full := 0,
    stats := { totalConsumed := 2, totalProcessNanoseconds := 11 } }

/-- Witness for C2 at capacity 2 with two accepted items, fully drained. -/
theorem fifo_order_witness :
    [fifoTaskA, fifoTaskB] = (putsOf fifoOpsW).take ([fifoTaskA, fifoTaskB].length) ∧
    ([fifoTaskA, fifoTaskB].length = (putsOf fifoOpsW).length →
      [fifoTaskA, fifoTaskB] = putsOf fifoOpsW) :=
  fifo_order 2 fifoOpsW fifoStateW [fifoTaskA, fifoTaskB] (by decide) (by decide)

/-- Claim C4: in every reachable state of a buffer of capacity `C ≥ 1`, the
number of filled slots (items put and not yet taken) is between 0 and `C`;
whenever `put` can proceed (the `empty` semaphore is available) the slot it
writes, `tail`, is not one of the slots holding an unconsumed item, and
whenever `take` can proceed (the `full` semaphore is available) the slot it
reads, `head`, holds an item. -/
theorem capacity_bound (C : Nat) (ops : List Op) (s' : SysState) (outs : List Task)
    (hC : 1 ≤ C) (h : run (initState C) ops = some (s', outs)) :
    ∃ pending : List Task,
      putsOf ops = outs ++ pending ∧
      pending.length ≤ C ∧
      (s'.empty ≠ 0 → ∀ i, i < pending.length → (s'.head + i) % C ≠ s'.tail) ∧
      (s'.full ≠ 0 → (s'.buffer.getD s'.head none).isSome = true) := by
  obtain ⟨pending, hinv, hrel⟩ := run_inv ops (initState C) [] s' outs (initInv C hC) h
  simp only [List.nil_append] at hrel
  refine ⟨pending, hrel, by have := hinv.hcap; omega, ?_, ?_⟩
  · intro hne i hi hcon
    rw [hinv.htailEq] at hcon
    have hL : pending.length < C := by have := hinv.hcap; omega
    exact absurd (mod_add_cancel (by omega) hL hcon) (by omega)
  · intro hfne
    have hlen : 0 < pending.length := by have := hinv.hfull; omega
    have h0 := hinv.hslots 0 hlen
    rw [Nat.add_zero, Nat.mod_eq_of_lt hinv.hhead] at h0
    rw [h0, List.getElem?_eq_getElem hlen]
    rfl

def capTask : Task := { pid := 7, uid := 1, start_time := 1 }

def capOpsW : List Op := [Op.put capTask, Op.take 3]

def capStateW : SysState :=
  { buffSize := 1, buffer := [some capTask], head := 0, tail := 0,
    empty := 1, full := 0,
    stats := { totalConsumed := 1, totalProcessNanoseconds := 2 } }

/-- Witness for C4 at capacity 1 with one item put and taken. -/
theorem capacity_bound_witness :
    ∃ pending : List Task,
      putsOf capOpsW = [capTask] ++ pending ∧
      pending.length ≤ 1 ∧
      (capStateW.empty ≠ 0 → ∀ i, i < pending.length →
        (capStateW.head + i) % 1 ≠ capStateW.tail) ∧
      (capStateW.full ≠ 0 → (capStateW.buffer.getD capStateW.head none).isSome = true) :=
  capacity_bound 1 capOpsW capStateW [capTask] (by decide) (by decide)

/-- Claim C10: `head` and `tail` both start at 0, and in every reachable
state of every execution with `buffSize ≥ 1` both indices lie in
`[0, buffSize)`, because every advance is taken modulo `buffSize`. -/
theorem head_tail_range (C : Nat) (ops : List Op) (s' : SysState) (outs : List Task)
    (hC : 1 ≤ C) (h : run (initState C) ops = some (s', outs)) :
    (initState C).head = 0 ∧ (initState C).tail = 0 ∧ s'.head < C ∧ s'.tail < C := by
  obtain ⟨pending, hinv, _⟩ := run_inv ops (initState C) [] s' outs (initInv C hC) h
  exact ⟨rfl, rfl, hinv.hhead, hinv.htail⟩

def rangeTask : Task := { pid := 9, uid := 2, start_time := 4 }

def rangeOpsW : List Op := [Op.put rangeTask]

def rangeStateW : SysState :=
  { buffSize := 3, buffer := [some rangeTask, none, none], head := 0, tail := 1,
    empty := 2, full := 1,
    stats := { totalConsumed := 0, totalProcessNanoseconds := 0 } }

/-- Witness for C10 at capacity 3 after one put. -/
theorem head_tail_range_witness :
    (initState 3).head = 0 ∧ (initState 3).tail = 0 ∧
    rangeStateW.head < 3 ∧ rangeStateW.tail < 3 :=
  head_tail_range 3 rangeOpsW rangeStateW [] (by decide) (by decide)

/-- The accepted items of the producer scan are exactly the tasks whose
uid matches the filter, in scan order. -/
theorem scan_map_snd (uuid : Nat) :
    ∀ (tasks : List Task) (count : Nat),
    (kthread_producer_scan uuid count tasks).map Prod.snd =
      tasks.filter (fun t => t.uid == uuid)
  | [], _ => by simp [kthread_producer_scan]
  | task :: rest, count => by
    cases htask : (task.uid == uuid) with
    | true => simp [kthread_producer_scan, htask, scan_map_snd uuid rest (count + 1)]
    | false => simp [kthread_producer_scan, htask, scan_map_snd uuid rest count]

/-- The produced-count values logged by the producer scan are consecutive,
one increment per accepted item only. -/
theorem scan_map_fst (uuid : Nat) :
    ∀ (tasks : List Task) (count : Nat),
    (kthread_producer_scan uuid count tasks).map Prod.fst =
      List.range' (count + 1) ((tasks.filter (fun t => t.uid == uuid)).length)
  | [], _ => by simp [kthread_producer_scan]
  | task :: rest, count => by
    cases htask : (task.uid == uuid) with
    | true =>
      simp [kthread_producer_scan, htask, scan_map_fst uuid rest (count + 1),
        List.range'_succ]
    | false => simp [kthread_producer_scan, htask, scan_map_fst uuid rest count]

/-- Claim C5: in the producer's single pass over the item source, an item
is pushed if and only if its owner id equals the configured filter value,
in original order; rejected items produce no push, no count increment and
no log pair.  In particular, for owner ids 1,1,2,3,1 and filter 1 exactly
the three matching items are produced, in order, with counts 1,2,3. -/
theorem producer_filter_spec (uuid : Nat) (tasks : List Task) :
    (kthread_producer_scan uuid 0 tasks).map Prod.snd =
      tasks.filter (fun t => t.uid == uuid) ∧
    (kthread_producer_scan uuid 0 tasks).map Prod.fst =
      List.range' 1 ((tasks.filter (fun t => t.uid == uuid)).length) ∧
    kthread_producer_scan 1 0
        [{ pid := 10, uid := 1, start_time := 100 },
         { pid := 11, uid := 1, start_time := 101 },
         { pid := 12, uid := 2, start_time := 102 },
         { pid := 13, uid := 3, start_time := 103 },
         { pid := 14, uid := 1, start_time := 104 }] =
      [(1, { pid := 10, uid := 1, start_time := 100 }),
       (2, { pid := 11, uid := 1, start_time := 101 }),
       (3, { pid := 14, uid := 1, start_time := 104 })] :=
  ⟨scan_map_snd uuid tasks 0, scan_map_fst uuid tasks 0, by decide⟩

/-- A 64-bit wrap-around is the identity on values in range. -/
theorem wrap64_eq_self {x : Int} (h1 : -(2 ^ 63) ≤ x) (h2 : x < 2 ^ 63) :
    wrap64 x = x := by
  unfold wrap64
  rw [Int.emod_eq_of_lt (by omega) (by omega)]
  omega

/-- A 32-bit wrap-around is the identity on values in range. -/
theorem wrap32_eq_self {x : Int} (h1 : -(2 ^ 31) ≤ x) (h2 : x < 2 ^ 31) :
    wrap32 x = x := by
  unfold wrap32
  rw [Int.emod_eq_of_lt (by omega) (by omega)]
  omega

/-- The statistics left after consuming the items of `pairs`, each pair
being the consumption time `ktime_get_ns()` and the item's `start_time`,
starting from zeroed counters (the state `producer_consumer_init` leaves). -/
def runStats (pairs : List (Int × Int)) : Stats :=
  pairs.foldl (fun st p => consumeStats st p.1 p.2)
    { totalConsumed := 0, totalProcessNanoseconds := 0 }

/-- Folding the consumer's accounting update over a list of consumptions,
from an arbitrary in-range starting value of the counters. -/
theorem runStats_go :
    ∀ (pairs : List (Int × Int)) (st : Stats),
    0 ≤ st.totalConsumed → 0 ≤ st.totalProcessNanoseconds →
    (∀ p ∈ pairs, 0 ≤ p.1 - p.2) →
    st.totalProcessNanoseconds + (pairs.map (fun p => p.1 - p.2)).sum < 2 ^ 63 →
    st.totalConsumed + pairs.length < 2 ^ 31 →
    pairs.foldl (fun st p => consumeStats st p.1 p.2) st =
      { totalConsumed := st.totalConsumed + pairs.length
        totalProcessNanoseconds :=
          st.totalProcessNanoseconds + (pairs.map (fun p => p.1 - p.2)).sum }
  | [], st => by
    intro h1 h2 h3 h4 h5
    cases st
    simp
  | p :: rest, st => by
    intro h1 h2 h3 h4 h5
    have hterm : 0 ≤ p.1 - p.2 := h3 p (by simp)
    have hrest : ∀ q ∈ rest, 0 ≤ q.1 - q.2 := fun q hq => h3 q (by simp [hq])
    have hsumrest : 0 ≤ (rest.map (fun q => q.1 - q.2)).sum := by
      refine List.sum_nonneg ?_
      intro x hx
      simp only [List.mem_map] at hx
      obtain ⟨q, hq, rfl⟩ := hx
      exact hrest q hq
    simp only [List.map_cons, List.sum_cons] at h4
    simp only [List.length_cons] at h5
    have hcs : consumeStats st p.1 p.2 =
        { totalConsumed := st.totalConsumed + 1
          totalProcessNanoseconds := st.totalProcessNanoseconds + (p.1 - p.2) } := by
      unfold consumeStats
      rw [@wrap64_eq_self (p.1 - p.2) (by omega) (by omega),
        @wrap64_eq_self (st.totalProcessNanoseconds + (p.1 - p.2)) (by omega) (by omega),
        @wrap32_eq_self (st.totalConsumed + 1) (by omega) (by omega)]
    rw [List.foldl_cons, hcs,
      runStats_go rest
        { totalConsumed := st.totalConsumed + 1
          totalProcessNanoseconds := st.totalProcessNanoseconds + (p.1 - p.2) }
        (show (0 : Int) ≤ st.totalConsumed + 1 by omega)
        (show (0 : Int) ≤ st.totalProcessNanoseconds + (p.1 - p.2) by omega)
        hrest
        (show st.totalProcessNanoseconds + (p.1 - p.2) +
          (rest.map (fun q => q.1 - q.2)).sum < 2 ^ 63 by omega)
        (show st.totalConsumed + 1 + (rest.length : Int) < 2 ^ 31 by omega)]
    simp only [Stats.mk.injEq, List.length_cons, List.map_cons, List.sum_cons]
    constructor
    · push_cast
      ring
    · ring

/-- Claim C6: consuming K items with elapsed times `e_i = now_i − start_i`
(nanoseconds, each nonnegative, totals within the 64-bit counter range)
leaves the shared statistics with `totalConsumed = K` and
`totalProcessNanoseconds = e_1 + … + e_K`, exact to the nanosecond; the
update `consumeStats` is the one the consumer performs inside the
`mutex`-protected critical section that also mutates the buffer. -/
theorem stats_aggregation (pairs : List (Int × Int))
    (hnn : ∀ p ∈ pairs, 0 ≤ p.1 - p.2)
    (hsum : (pairs.map (fun p => p.1 - p.2)).sum < 2 ^ 63)
    (hK : (pairs.length : Int) < 2 ^ 31) :
    (runStats pairs).totalConsumed = pairs.length ∧
    (runStats pairs).totalProcessNanoseconds =
      (pairs.map (fun p => p.1 - p.2)).sum := by
  unfold runStats
  rw [runStats_go pairs { totalConsumed := 0, totalProcessNanoseconds := 0 }
    (by norm_num) (by norm_num) hnn (by simpa using hsum) (by simpa using hK)]
  constructor <;> simp

/-- Witness for C6: two consumptions with elapsed times 6 and 15 ns. -/
theorem stats_aggregation_witness :
    (runStats [((10 : Int), (4 : Int)), (20, 5)]).totalConsumed =
      ([((10 : Int), (4 : Int)), (20, 5)].length : Int) ∧
    (runStats [((10 : Int), (4 : Int)), (20, 5)]).totalProcessNanoseconds =
      ([((10 : Int), (4 : Int)), (20, 5)].map (fun p => p.1 - p.2)).sum :=
  stats_aggregation [(10, 4), (20, 5)] (by decide) (by decide) (by decide)

/-- Claim C7: for every nonnegative elapsed-nanoseconds value `t` the
formatted string is hours, minutes, seconds separated by colons with
zero-padded two-digit minimum fields, each field truncated:
hours `t / 3600000000000`, minutes `(t / 60000000000) mod 60`, seconds
`(t / 1000000000) mod 60` (mathematical floor division, which the C
truncating division agrees with on nonnegative operands); in particular
5025000000000 ns formats to "01:23:45", and the final-summary line of
`producer_consumer_exit` formats its cumulative value identically. -/
theorem elapsed_time_format (t : Int) (ht : 0 ≤ t) :
    formatElapsed t =
      pad2 (t / 3600000000000) ++ ":" ++
      pad2 ((t / 60000000000) % 60) ++ ":" ++
      pad2 ((t / 1000000000) % 60) ∧
    formatElapsed 5025000000000 = "01:23:45" ∧
    (∀ u : Int, exit_formatElapsed u = formatElapsed u) := by
  refine ⟨?_, by decide, fun u => rfl⟩
  unfold formatElapsed
  rw [@Int.tdiv_eq_ediv t 3600000000000 ht (by decide),
    @Int.tdiv_eq_ediv t 60000000000 ht (by decide),
    @Int.tdiv_eq_ediv t 1000000000 ht (by decide),
    @Int.tmod_eq_emod (t / 60000000000) 60 (Int.ediv_nonneg ht (by decide)) (by decide),
    @Int.tmod_eq_emod (t / 1000000000) 60 (Int.ediv_nonneg ht (by decide)) (by decide)]

/-- Witness for C7 at the spec's example input. -/
theorem elapsed_time_format_witness :
    formatElapsed 5025000000000 =
      pad2 ((5025000000000 : Int) / 3600000000000) ++ ":" ++
      pad2 (((5025000000000 : Int) / 60000000000) % 60) ++ ":" ++
      pad2 (((5025000000000 : Int) / 1000000000) % 60) ∧
    formatElapsed 5025000000000 = "01:23:45" ∧
    (∀ u : Int, exit_formatElapsed u = formatElapsed u) :=
  elapsed_time_format 5025000000000 (by decide)

/-- The `%02ld` rendering of a nonnegative value below 100 is exactly two
characters long. -/
theorem pad2_length_two : ∀ n : Nat, n < 100 → (pad2 (n : Int)).length = 2 := by
  decide

/-- `pad2` length for an in-range integer, via its natural-number value. -/
theorem pad2_length_of_nonneg_lt {x : Int} (h0 : 0 ≤ x) (h1 : x < 100) :
    (pad2 x).length = 2 := by
  have hx : x = ((x.toNat : Nat) : Int) := (Int.toNat_of_nonneg h0).symm
  rw [hx]
  exact pad2_length_two x.toNat (by omega)

/-- Claim C9 counterexample: at an elapsed time of 100 hours the hours
field is rendered with three digits, the formatted string is 9 characters,
and together with the terminating NUL it needs 10 bytes, more than the
9-byte `timeFormat` destination holds — the claim that the result always
fits the destination storage is false. -/
theorem format_overflow_100_hours :
    Int.tdiv 360000000000000 3600000000000 = 100 ∧
    formatElapsed 360000000000000 = "100:00:00" ∧
    timeFormatSize < (formatElapsed 360000000000000).length + 1 := by
  decide

/-- Claim C9 amended: the formatting renders the full hours value without
truncating the field width, and the formatted string together with its
terminating NUL fits the 9-byte `timeFormat` destination whenever the
hours value is at most 99; at 100 hours it no longer fits. -/
theorem format_fits_iff_hours_le_99 :
    (∀ t : Int, 0 ≤ t → Int.tdiv t 3600000000000 ≤ 99 →
      (formatElapsed t).length + 1 ≤ timeFormatSize) ∧
    ¬ ((formatElapsed 360000000000000).length + 1 ≤ timeFormatSize) := by
  constructor
  · intro t ht hh
    unfold formatElapsed
    rw [@Int.tdiv_eq_ediv t 3600000000000 ht (by decide),
      @Int.tdiv_eq_ediv t 60000000000 ht (by decide),
      @Int.tdiv_eq_ediv t 1000000000 ht (by decide),
      @Int.tmod_eq_emod (t / 60000000000) 60 (Int.ediv_nonneg ht (by decide)) (by decide),
      @Int.tmod_eq_emod (t / 1000000000) 60 (Int.ediv_nonneg ht (by decide)) (by decide)]
    rw [@Int.tdiv_eq_ediv t 3600000000000 ht (by decide)] at hh
    have e1 : (pad2 (t / 3600000000000)).length = 2 :=
      pad2_length_of_nonneg_lt (by omega) (by omega)
    have e2 : (pad2 ((t / 60000000000) % 60)).length = 2 :=
      pad2_length_of_nonneg_lt (by omega) (by omega)
    have e3 : (pad2 ((t / 1000000000) % 60)).length = 2 :=
      pad2_length_of_nonneg_lt (by omega) (by omega)
    simp only [String.length_append, e1, e2, e3]
    decide
  · decide

/-- Witness for the amended C9 at the spec's example input. -/
theorem format_fits_witness :
    (formatElapsed 5025000000000).length + 1 ≤ timeFormatSize :=
  format_fits_iff_hours_le_99.1 5025000000000 (by decide) (by decide)

/-- Claim C8: startup aborts with the configuration error `-1` exactly when
`buffSize < 1`, or `prod` is outside 0..1, or `cons < 0`; the checks run
before any semaphore initialization, allocation or thread creation (the
error branch performs none of the startup actions), and every valid
configuration passes validation and proceeds to the startup actions. -/
theorem init_validation (buffSize prod cons : Int) :
    ((buffSize < 1 ∨ prod < 0 ∨ 1 < prod ∨ cons < 0) ↔
      producer_consumer_init buffSize prod cons = .error (-1)) ∧
    (1 ≤ buffSize → 0 ≤ prod → prod ≤ 1 → 0 ≤ cons →
      ∃ acts, producer_consumer_init buffSize prod cons = .ok acts) := by
  unfold producer_consumer_init
  constructor
  · constructor
    · intro hbad
      split_ifs with h1 h2 h3
      · rfl
      · rfl
      · rfl
      · exact absurd hbad (by omega)
    · intro herr
      split_ifs at herr with h1 h2 h3
      · omega
      · omega
      · omega
  · intro hb hp0 hp1 hc
    split_ifs
    all_goals first
    | omega
    | exact ⟨_, rfl⟩

/-- Witness for C8: an invalid configuration is rejected with `-1`; a valid
configuration passes validation and starts up. -/
theorem init_validation_witness :
    producer_consumer_init (-3) 1 2 = .error (-1) ∧
    ∃ acts, producer_consumer_init 10 1 3 = .ok acts :=
  ⟨(init_validation (-3) 1 2).1.mp (by decide),
   (init_validation 10 1 3).2 (by decide) (by decide) (by decide) (by decide)⟩

/-- Claim C1 (behavior of the code at the failing configuration): with 5
consumers, the shutdown sequence of `producer_consumer_exit` contains
exactly one release of the `mutex` semaphore and exactly one release of
the `full` semaphore — not the at-least-one-per-consumer the claim
requires — and all 5 blocking `kthread_stop` joins are issued before the
single pair of releases. -/
theorem exit_undersignals :
    (producer_consumer_exit 5).count ExitAction.upFull = 1 ∧
    (producer_consumer_exit 5).count ExitAction.upMutex = 1 ∧
    ¬ (5 ≤ (producer_consumer_exit 5).count ExitAction.upFull) ∧
    (producer_consumer_exit 5).take 5 = (List.range 5).map ExitAction.stopConsumer := by
  decide

/-- Claim C3 counterexample: from the reachable state after one `put` on a
capacity-2 buffer, a producer whose `mutex` wait is cancelled after its
`empty` wait succeeded (modelled by `putIntrMutex`) returns interrupted
having stored nothing — head, tail, full count, buffer contents and
outputs all unchanged — yet the `empty` count drops from 1 to 0: the slot
accounting does change, refuting the claim's "no state change". -/
theorem interrupted_lock_wait_changes_accounting :
    (run (initState 2) [Op.put { pid := 100, uid := 1, start_time := 0 }]).map
        (fun r => r.1.empty) = some 1 ∧
    (run (initState 2) [Op.put { pid := 100, uid := 1, start_time := 0 },
        Op.putIntrMutex]).map (fun r => r.1.empty) = some 0 ∧
    (run (initState 2) [Op.put { pid := 100, uid := 1, start_time := 0 },
        Op.putIntrMutex]).map
        (fun r => (r.1.head, r.1.tail, r.1.full, r.1.buffer, r.2)) =
      (run (initState 2) [Op.put { pid := 100, uid := 1, start_time := 0 }]).map
        (fun r => (r.1.head, r.1.tail, r.1.full, r.1.buffer, r.2)) :=
  ⟨rfl, rfl, rfl⟩

/-- Claim C3 amended: an interrupted wait stores or removes nothing and
leaves head, tail and the buffer unchanged; cancellation of the first
(slot-count) wait changes no state at all, while cancellation of the
`mutex` wait after the slot-count semaphore was acquired leaves that
single count decrement in place (`empty` one lower in `put`, `full` one
lower in `take`); the thread then exits its loop without completing the
operation. -/
theorem interrupted_wait_effects (s : SysState) :
    (s.empty = 0 → step s Op.putIntrEmpty = some (s, [])) ∧
    (s.full = 0 → step s Op.takeIntrFull = some (s, [])) ∧
    (s.empty ≠ 0 → step s Op.putIntrMutex = some ({ s with empty := s.empty - 1 }, [])) ∧
    (s.full ≠ 0 → step s Op.takeIntrMutex = some ({ s with full := s.full - 1 }, [])) := by
  refine ⟨fun h => ?_, fun h => ?_, fun h => ?_, fun h => ?_⟩ <;> simp [step, h]

def c3WitnessState : SysState :=
  { buffSize := 2, buffer := [some { pid := 100, uid := 1, start_time := 0 }, none],
    head := 0, tail := 1, empty := 1, full := 1,
    stats := { totalConsumed := 0, totalProcessNanoseconds := 0 } }

/-- Witness for the amended C3 at a concrete reachable state. -/
theorem interrupted_wait_effects_witness :
    step c3WitnessState Op.putIntrMutex =
      some ({ c3WitnessState with empty := c3WitnessState.empty - 1 }, []) ∧
    step c3WitnessState Op.takeIntrMutex =
      some ({ c3WitnessState with full := c3WitnessState.full - 1 }, []) :=
  ⟨(interrupted_wait_effects c3WitnessState).2.2.1 (by decide),
   (interrupted_wait_effects c3WitnessState).2.2.2 (by decide)⟩

end ProducerConsumer
